import Mathlib

/-!
Verification of `gbasis/deriv.py`: evaluation of (derivatives of) contracted
Cartesian Gaussian functions.

Two embeddings are developed.

1. A value-level embedding over `ℝ` of the single-point evaluation path of
   `eval_deriv_contraction` (deriv.py lines 53-146), together with the three
   wrappers `eval_contraction`, `eval_deriv_prim` and `eval_prim`.  With a
   one-dimensional `coord` of shape `(3,)` the numpy arrays of the source line
   up as: axis 0 = Hermite-term index, axis 1 = primitive index, axis 2 =
   spatial dimension, axis 3 = angular-momentum-vector index, and the output
   of the function is the vector over angular-momentum components

     result l = ∑_p prim_coeffs p · (∏_{i, orders i ≤ 0} relᵢ^(angmom l i) · exp(-αₚ relᵢ²))
                              · (∏_{i, orders i > 0} exp(-αₚ relᵢ²) · hermval (coeffs ...) (√αₚ relᵢ))

   which the definitions below spell out stage by stage, keeping the source's
   names (`comb`, `perm`, the coefficient table of lines 102-107, the two
   masking passes of lines 109-112, `numpy.polynomial.hermite.hermval` in the
   physicists' Hermite basis).

2. A shape-level embedding of numpy broadcasting, tracing the shapes of the
   intermediate arrays of `eval_deriv_contraction` exactly as the source
   builds them, to settle the claims about output shapes and shape errors.
   A result `none` means numpy raises (a broadcasting/indexing `ValueError`);
   `some s` means the call returns an array of shape `s`.
-/

namespace GBasis

/-! ### Value-level embedding (single evaluation point) -/

noncomputable section RealModel

/-- One-dimensional Gaussian factor `exp(-α·x²)` (deriv.py line 66, per
dimension, with `x` the relative coordinate). -/
def gauss (a x : ℝ) : ℝ := Real.exp (-a * x ^ 2)

/-- `scipy.special.comb(n, k)` for the nonnegative integer arguments used at
deriv.py line 103: the binomial coefficient, `0` when `k > n`. -/
def comb (n k : ℕ) : ℝ := (n.choose k : ℝ)

/-- `scipy.special.perm(m, k) = Γ(m+1)/Γ(m-k+1)` for a nonnegative integer
`m` and integer `k` (deriv.py line 104).  For `0 ≤ k` this is the falling
factorial `m·(m-1)···(m-k+1)`, which is `0` when `k > m` (scipy's gamma-pole
convention); for `k < 0` it is `1/((m+1)(m+2)···(m-k))`. -/
def perm (m : ℕ) (k : ℤ) : ℝ :=
  if 0 ≤ k then (m.descFactorial k.toNat : ℝ)
  else (∏ i in Finset.Icc (m + 1) (m + (-k).toNat), (i : ℝ))⁻¹

/-- Physicists' Hermite polynomials `H_n`, the basis used by
`numpy.polynomial.hermite`: `H_0 = 1`, `H_1 y = 2y`,
`H_{n+2} y = 2y·H_{n+1} y - 2(n+1)·H_n y`. -/
def hermiteH : ℕ → ℝ → ℝ
  | 0, _ => 1
  | 1, y => 2 * y
  | n + 2, y => 2 * y * hermiteH (n + 1) y - 2 * (n + 1) * hermiteH n y

/-- `numpy.polynomial.hermite.hermval y c` for a coefficient vector of length
`H`: the sum `∑_{h<H} c h · H_h y` (deriv.py line 122). -/
def hermval (c : ℕ → ℝ) (H : ℕ) (y : ℝ) : ℝ := ∑ h in Finset.range H, c h * hermiteH h y

/-- The raw Hermite coefficient table of deriv.py lines 102-107 for one
dimension: `n` the (positive) derivative order, `m` the angular momentum
component, `a` the exponent, `x` the relative coordinate, `h` the
Hermite-term index.  The monomial power is the index
`m - n + h` of line 99 clamped at `0` (line 100). -/
def coeffsRaw (n : ℤ) (m : ℕ) (a x : ℝ) (h : ℕ) : ℝ :=
  comb n.toNat h * perm m (n - h) * (-Real.sqrt a) ^ h *
    x ^ (max ((m : ℤ) - n + h) 0).toNat

/-- The coefficient table after the two zeroing passes of deriv.py lines
109-112: entries with `h < max 0 (n - m)` and entries with `n < h` are
overwritten with `0`. -/
def coeffsMasked (n : ℤ) (m : ℕ) (a x : ℝ) (h : ℕ) : ℝ :=
  if (h : ℤ) < max 0 (n - (m : ℤ)) then 0
  else if n < (h : ℤ) then 0
  else coeffsRaw n m a x h

/-- Per-dimension factor of the zeroth-order part (deriv.py line 75):
`rel^m · exp(-α·rel²)`. -/
def zerothFactor (m : ℕ) (a x : ℝ) : ℝ := x ^ m * gauss a x

/-- Per-dimension factor of the derivative part (deriv.py lines 118-143):
the Gaussian factor times the masked Hermite coefficient table evaluated, via
`hermval`, at `√a · x`.  `H` is the shared table length
`max(nonzero_orders) + 1` of line 94. -/
def derivFactor (H : ℕ) (n : ℤ) (m : ℕ) (a x : ℝ) : ℝ :=
  gauss a x * hermval (coeffsMasked n m a x) H (Real.sqrt a * x)

/-- `np.max(nonzero_orders)` of deriv.py line 94: the largest positive
derivative order (as a natural number), `0` when no order is positive. -/
def maxOrder (orders : Fin 3 → ℤ) : ℕ :=
  (Finset.univ.filter fun i => 0 < orders i).sup fun i => (orders i).toNat

/-- Value of `eval_deriv_contraction` (deriv.py lines 9-146) at a single
evaluation point, for angular-momentum component `l`: the zeroth-order part
(line 75, product over the dimensions with `orders i ≤ 0`), times the
derivative part (lines 89-143, product over the dimensions with
`0 < orders i`, equal to `1` when there is none), weighted by the
contraction coefficients and summed over the primitives (line 146). -/
def eval_deriv_contraction {K L : ℕ} (coord : Fin 3 → ℝ) (orders : Fin 3 → ℤ)
    (center : Fin 3 → ℝ) (angmom_comps : Fin L → Fin 3 → ℕ)
    (alphas : Fin K → ℝ) (prim_coeffs : Fin K → ℝ) : Fin L → ℝ :=
  fun l => ∑ p : Fin K, prim_coeffs p *
    (∏ i in Finset.univ.filter fun i => orders i ≤ 0,
      zerothFactor (angmom_comps l i) (alphas p) (coord i - center i)) *
    (∏ i in Finset.univ.filter fun i => 0 < orders i,
      derivFactor (maxOrder orders + 1) (orders i) (angmom_comps l i) (alphas p)
        (coord i - center i))

/-- `eval_contraction` (deriv.py lines 149-181): delegates to
`eval_deriv_contraction` with orders `np.zeros(3)`. -/
def eval_contraction {K L : ℕ} (coord : Fin 3 → ℝ) (center : Fin 3 → ℝ)
    (angmom_comps : Fin L → Fin 3 → ℕ) (alphas : Fin K → ℝ)
    (coeffs : Fin K → ℝ) : Fin L → ℝ :=
  eval_deriv_contraction coord (fun _ => 0) center angmom_comps alphas coeffs

/-- `eval_deriv_prim` (deriv.py lines 186-214): a single primitive with
contraction coefficient `1`, first (and only) angular-momentum component. -/
def eval_deriv_prim (coord : Fin 3 → ℝ) (orders : Fin 3 → ℤ) (center : Fin 3 → ℝ)
    (angmom_comps : Fin 3 → ℕ) (alpha : ℝ) : ℝ :=
  eval_deriv_contraction (K := 1) (L := 1) coord orders center (fun _ => angmom_comps)
    (fun _ => alpha) (fun _ => 1) 0

/-- `eval_prim` (deriv.py lines 219-244): delegates to `eval_deriv_prim`
with orders `np.zeros(3)`. -/
def eval_prim (coord : Fin 3 → ℝ) (center : Fin 3 → ℝ) (angmom_comps : Fin 3 → ℕ)
    (alpha : ℝ) : ℝ :=
  eval_deriv_prim coord (fun _ => 0) center angmom_comps alpha

end RealModel

/-! ### Shape-level embedding of the numpy broadcasting in
`eval_deriv_contraction`

Shapes are lists of naturals, leftmost entry = axis 0.  `none` models a numpy
`ValueError` (incompatible broadcast or invalid index); `some s` models an
array of shape `s`. -/

/-- A numpy array shape: the list of its axis lengths, axis 0 first. -/
abbrev Shape : Type := List ℕ

/-- Combine two axis lengths under numpy broadcasting: equal lengths stay,
a length of `1` stretches to the other, anything else is an error. -/
def bdim (a b : ℕ) : Option ℕ :=
  if a = b then some a else if a = 1 then some b else if b = 1 then some a else none

/-- Broadcast two reversed shapes (trailing axes first). -/
def bcastRev : List ℕ → List ℕ → Option (List ℕ)
  | [], t => some t
  | s, [] => some s
  | a :: s, b :: t => do
    let d ← bdim a b
    let r ← bcastRev s t
    pure (d :: r)

/-- Numpy broadcasting of two shapes: align the trailing axes, pad the
shorter shape with `1`s on the left. -/
def bcast (s t : Shape) : Option Shape :=
  (bcastRev (List.reverse s) (List.reverse t)).map List.reverse

/-- Shape of `x[np.newaxis, np.newaxis, :, np.newaxis]` (deriv.py lines
53 and 57). -/
def expandAxes : Shape → Option Shape
  | c :: rest => some ([1, 1, c, 1] ++ rest)
  | [] => none

/-- Shape of `x[:, :, mask]` for a boolean mask of length 3 selecting `z`
entries of axis 2 (deriv.py lines 70-74 and 80-85): requires axis 2 to have
length exactly 3. -/
def maskAxis2 (s : Shape) (z : ℕ) : Option Shape :=
  match s with
  | a :: b :: c :: rest => if c = 3 then some (a :: b :: z :: rest) else none
  | _ => none

/-- Shape of `np.prod(x, axis=(0, 2))` (deriv.py lines 75 and 143): axes 0
and 2 are removed. -/
def prodAxes02 : Shape → Option Shape
  | _ :: b :: _ :: rest => some (b :: rest)
  | _ => none

/-- Shape of `np.sum(x, axis=0)` (deriv.py line 146): axis 0 is removed. -/
def sumAxis0 : Shape → Option Shape
  | _ :: rest => some rest
  | [] => none

/-- Validity of the masking assignment
`coeffs[iz[0], :, iz[2], iz[3]] = 0` (deriv.py line 110): `coeffs` must be
4-dimensional and the index arrays produced by `np.where` on a condition of
shape `cond` must stay within the bounds of axes 0, 2 and 3. -/
def assignAxes023 (coeffs cond : Shape) : Option Unit :=
  match coeffs, cond with
  | [a, _, c, d], [a', _, c', d'] => if a' ≤ a ∧ c' ≤ c ∧ d' ≤ d then some () else none
  | _, _ => none

/-- Validity of the masking assignment `coeffs[iz[0], :, iz[2]] = 0`
(deriv.py line 112): `coeffs` must be 4-dimensional and the index arrays
must stay within the bounds of axes 0 and 2. -/
def assignAxes02 (coeffs cond : Shape) : Option Unit :=
  match coeffs, cond with
  | [a, _, c, _], [a', _, c', _] => if a' ≤ a ∧ c' ≤ c then some () else none
  | _, _ => none

/-- Number of derivative orders with `orders i ≤ 0` (`indices_noderiv`,
deriv.py line 69). -/
def nZero (orders : List ℤ) : ℕ := (orders.filter fun o => decide (o ≤ 0)).length

/-- Number of derivative orders with `0 < orders i`. -/
def nPos (orders : List ℤ) : ℕ := (orders.filter fun o => decide (0 < o)).length

/-- `np.max(nonzero_orders)` (deriv.py line 94) as a natural number. -/
def maxPos (orders : List ℤ) : ℕ :=
  ((orders.filter fun o => decide (0 < o)).map Int.toNat).foldr max 0

/-- Shape of `angmom_comps.T[np.newaxis, np.newaxis, :, :]` after the 1-D
promotion of deriv.py lines 42-43 and 58. -/
def angmomAxes (angmomS : Shape) : Option Shape :=
  match (if List.length angmomS = 1 then 1 :: angmomS else angmomS : Shape) with
  | [l, t] => some [1, 1, t, l]
  | _ => none

/-- Shape of `alphas[np.newaxis, :, np.newaxis, np.newaxis]` (deriv.py
line 61) for the documented one-dimensional `alphas`. -/
def alphasAxes (alphasS : Shape) : Option Shape :=
  match alphasS with
  | [k] => some [1, k, 1, 1]
  | _ => none

/-- Shape of `prim_coeffs[:, np.newaxis]` (deriv.py line 145) for the
documented one-dimensional `prim_coeffs`. -/
def primAxes (primS : Shape) : Option Shape :=
  match primS with
  | [k] => some [k, 1]
  | _ => none

/-- Shape of the Hermite evaluation loop result (deriv.py lines 118-141):
loops run `j < nz_rel.shape[2]`, `i < alphas.shape[1]`,
`k < nz_angmom.shape[3]`, and the column slices of `coeffs` must be in
bounds.  Modelled for the layout in which the operand arrays are
4-dimensional (the only layout whose preceding stages all broadcast without
error): each `hermval` call returns shape `(1,)`, the nested list becomes an
array of shape `(d, K, L, 1)`, and `np.prod` over axes `(0, 3)` leaves
`(K, L)`. -/
def hermiteLoopShape (nzRel coeffsS nzAngmom alphasE : Shape) : Option Shape :=
  match nzRel, coeffsS, nzAngmom, alphasE with
  | [_, _, r2, _], [_, ck, cd, cl], [_, _, _, gl], [_, k1, _, _] =>
    if k1 ≤ ck ∧ r2 ≤ cd ∧ gl ≤ cl then some [k1, gl] else none
  | _, _, _, _ => none

/-- Shape of the coefficient table `coeffs` of deriv.py lines 102-107: the
broadcast of the `comb` factor, the `perm` factor, the `(-alphas**0.5)`
power and the monomial power. -/
def coeffsTableShape (nzRel nzAngmom alphasE ordersNZ hermS : Shape) : Option Shape := do
  -- line 99
  let s1 ← bcast nzAngmom ordersNZ
  let indices_angmom ← bcast s1 hermS
  -- lines 102-107
  let combS ← bcast ordersNZ hermS
  let permArg ← bcast ordersNZ hermS
  let permS ← bcast nzAngmom permArg
  let powAlpha ← bcast alphasE hermS
  let powRel ← bcast nzRel indices_angmom
  let c1 ← bcast combS permS
  let c2 ← bcast c1 powAlpha
  bcast c2 powRel

/-- Validity of the two masking passes of deriv.py lines 109-112. -/
def maskPassesShape (coeffsS nzAngmom ordersNZ hermS : Shape) : Option Unit := do
  -- lines 109-110
  let condArg ← bcast ordersNZ nzAngmom
  let cond1 ← bcast hermS condArg
  let _ ← assignAxes023 coeffsS cond1
  -- lines 111-112
  let cond2 ← bcast ordersNZ hermS
  assignAxes02 coeffsS cond2

/-- Shape-level trace of the derivative branch of `eval_deriv_contraction`
(deriv.py lines 89-143), entered when `d` dimensions have positive order;
`hmax` is `np.max(nonzero_orders)`. -/
def derivPartShape (rel gaussS angmomE alphasE : Shape) (d hmax : ℕ) : Option Shape := do
  -- lines 80-85
  let nz_rel ← maskAxis2 rel d
  let nz_angmom ← maskAxis2 angmomE d
  let nz_gauss ← maskAxis2 gaussS d
  -- lines 86 and 94
  let ordersNZ : Shape := [1, 1, d, 1]
  let hermS : Shape := [hmax + 1, 1, 1, 1]
  -- lines 99-107
  let coeffsS ← coeffsTableShape nz_rel nz_angmom alphasE ordersNZ hermS
  -- lines 109-112
  let _ ← maskPassesShape coeffsS nz_angmom ordersNZ hermS
  -- lines 118-141
  let hermite ← hermiteLoopShape nz_rel coeffsS nz_angmom alphasE
  -- line 143
  let dg ← prodAxes02 nz_gauss
  bcast dg hermite

/-- Shapes of `rel_coord` and of the Gaussian factor `gauss` (deriv.py
lines 65-66). -/
def gaussCoreShape (coordS centerS alphasE : Shape) : Option (Shape × Shape) := do
  -- lines 53 and 57
  let coordE ← expandAxes coordS
  let centerE ← expandAxes centerS
  -- line 65
  let rel ← bcast coordE centerE
  -- line 66: alphas * rel_coord ** 2
  let gaussS ← bcast alphasE rel
  pure (rel, gaussS)

/-- Shape of `zeroth_part` (deriv.py lines 69-75), where `z` dimensions have
order `≤ 0`. -/
def zerothPartShape (rel angmomE gaussS : Shape) (z : ℕ) : Option Shape := do
  -- lines 70-74
  let zero_rel ← maskAxis2 rel z
  let zero_angmom ← maskAxis2 angmomE z
  let zero_gauss ← maskAxis2 gaussS z
  -- line 75
  let t1 ← bcast zero_rel zero_angmom
  let t2 ← bcast t1 zero_gauss
  prodAxes02 t2

/-- Shape-level trace of `eval_deriv_contraction` (deriv.py lines 9-146):
given the shapes of `coord`, `center`, `angmom_comps`, `alphas` and
`prim_coeffs` as passed by the caller, and the `orders` vector, returns the
shape of the returned array, or `none` when numpy raises.  Each step mirrors
one line of the source. -/
def eval_deriv_contraction_shape (coordS centerS angmomS alphasS primS : Shape)
    (orders : List ℤ) : Option Shape := do
  -- lines 42-43 and 58, line 61
  let angmomE ← angmomAxes angmomS
  let alphasE ← alphasAxes alphasS
  -- lines 53-66
  let rg ← gaussCoreShape coordS centerS alphasE
  -- lines 69-75
  let zeroth ← zerothPartShape rg.1 angmomE rg.2 (nZero orders)
  -- lines 79-143
  let deriv ← if nPos orders = 0 then some ([] : Shape)
    else derivPartShape rg.1 rg.2 angmomE alphasE (nPos orders) (maxPos orders)
  -- line 145
  let prim2 ← primAxes primS
  -- line 146
  let f1 ← bcast prim2 zeroth
  let f2 ← bcast f1 deriv
  sumAxis0 f2

/-! ### Helper lemmas -/

theorem bdim_one_left (b : ℕ) : bdim 1 b = some b := by
  unfold bdim
  by_cases h : (1 : ℕ) = b
  · subst h; simp
  · simp [h]

theorem bdim_one_right (a : ℕ) : bdim a 1 = some a := by
  unfold bdim
  by_cases h : a = 1
  · subst h; simp
  · simp [h]

theorem bdim_self (a : ℕ) : bdim a a = some a := by simp [bdim]

/-! ### Claims -/

/-- Claim C1: for every exponent `a > 0`, center and evaluation point,
the derivative of a single Gaussian primitive with angular momentum
`(0,0,0)` and derivative orders `(1,0,0)` is
`-2a(x-cₓ)·exp(-a(x-cₓ)²)` times the two zero-order Gaussian factors of the
other dimensions. -/
theorem first_deriv_s_primitive (a : ℝ) (ha : 0 < a) (center coord : Fin 3 → ℝ) :
    eval_deriv_prim coord ![1, 0, 0] center (fun _ => 0) a =
      -2 * a * (coord 0 - center 0) * Real.exp (-a * (coord 0 - center 0) ^ 2) *
        (Real.exp (-a * (coord 1 - center 1) ^ 2) *
          Real.exp (-a * (coord 2 - center 2) ^ 2)) := by
  have hfz : (Finset.univ.filter fun i => (![(1:ℤ),0,0]) i ≤ 0) = {1, 2} := by decide
  have hfp : (Finset.univ.filter fun i => 0 < (![(1:ℤ),0,0]) i) = {0} := by decide
  have hmax : maxOrder ![(1:ℤ),0,0] = 1 := by decide
  have hc0 : coeffsMasked 1 0 a (coord 0 - center 0) 0 = 0 := by norm_num [coeffsMasked]
  have hc1 : coeffsMasked 1 0 a (coord 0 - center 0) 1 = -Real.sqrt a := by
    norm_num [coeffsMasked, coeffsRaw, comb, perm]
  rw [eval_deriv_prim, eval_deriv_contraction]
  rw [Fin.sum_univ_one]
  rw [hfz, hfp, hmax]
  rw [Finset.prod_pair (by decide : (1 : Fin 3) ≠ 2), Finset.prod_singleton]
  simp only [Matrix.cons_val_zero, Matrix.cons_val_one, Matrix.head_cons, derivFactor,
    hermval, Finset.sum_range_succ, Finset.sum_range_zero, hc0, hc1, hermiteH,
    zerothFactor, gauss, pow_zero, one_mul]
  ring_nf
  rw [Real.sq_sqrt ha.le]
  ring_nf

/-- Claim C1, witness: with `alpha = 1`, `center = (0,0,0)` and evaluation
point `(1,0,0)` the `(1,0,0)`-derivative of the `s`-type primitive is
`-2·exp(-1)`. -/
theorem first_deriv_s_primitive_witness :
    (0 : ℝ) < 1 ∧
      eval_deriv_prim ![1, 0, 0] ![1, 0, 0] ![0, 0, 0] (fun _ => 0) 1 =
        -2 * Real.exp (-1) := by
  refine ⟨one_pos, ?_⟩
  rw [first_deriv_s_primitive 1 one_pos ![0, 0, 0] ![1, 0, 0]]
  norm_num [Matrix.cons_val_zero, Matrix.cons_val_one, Matrix.head_cons]

/-- Claim C2: the claim says `eval_deriv_contraction` on points of shape
`(3, N)` returns an array of shape `(L, N)`.  The code does not: already for
`N = 1`, `L = 1`, `K = 1`, all orders zero, the expanded `coord` of shape
`(1,1,3,1,N)` and `center` of shape `(1,1,3,1)` cross-broadcast their
dimension axes and the call returns an array of shape `(3, 1)`; and for
`K = 2` primitives the Gaussian factor of line 66 fails to broadcast, so the
call raises a `ValueError`. -/
theorem multipoint_shape_divergence :
    eval_deriv_contraction_shape [3, 1] [3] [1, 3] [1] [1] [0, 0, 0] = some [3, 1] ∧
      eval_deriv_contraction_shape [3, 1] [3] [1, 3] [2] [2] [0, 0, 0] = none :=
  ⟨rfl, rfl⟩

/-- Claim C3: for every exponent `a > 0`, a single Gaussian primitive with
angular momentum `(0,0,0)` and derivative orders `(0,0,0)` evaluates to
`exp(-a·|r - center|²)`, and in particular to `1` at `r = center` (the
monomial convention `0^0 = 1`). -/
theorem zero_order_s_primitive_gaussian (a : ℝ) (ha : 0 < a) (center coord : Fin 3 → ℝ) :
    eval_prim coord center (fun _ => 0) a =
      Real.exp (-a * ((coord 0 - center 0) ^ 2 + (coord 1 - center 1) ^ 2 +
        (coord 2 - center 2) ^ 2)) ∧
    eval_prim center center (fun _ => 0) a = 1 := by
  have key : ∀ pt : Fin 3 → ℝ, eval_prim pt center (fun _ => 0) a =
      Real.exp (-a * ((pt 0 - center 0) ^ 2 + (pt 1 - center 1) ^ 2 +
        (pt 2 - center 2) ^ 2)) := by
    intro pt
    have hfz : (Finset.univ.filter fun i => (fun _ : Fin 3 => (0:ℤ)) i ≤ 0) =
        Finset.univ := by decide
    have hfp : (Finset.univ.filter fun i => 0 < (fun _ : Fin 3 => (0:ℤ)) i) = ∅ := by
      decide
    rw [eval_prim, eval_deriv_prim, eval_deriv_contraction]
    rw [Fin.sum_univ_one]
    rw [hfz, hfp, Finset.prod_empty]
    rw [Fin.prod_univ_three]
    simp only [zerothFactor, gauss, pow_zero, one_mul, mul_one]
    rw [← Real.exp_add, ← Real.exp_add]
    ring_nf
  refine ⟨key coord, ?_⟩
  rw [key center]
  simp

/-- Claim C3, witness: with `alpha = 1` the primitive evaluates at its own
center to exactly `1`. -/
theorem zero_order_s_primitive_gaussian_witness :
    (0 : ℝ) < 1 ∧ eval_prim ![0, 0, 0] ![0, 0, 0] (fun _ => 0) 1 = 1 :=
  ⟨one_pos, (zero_order_s_primitive_gaussian 1 one_pos ![0, 0, 0] ![1, 0, 0]).2⟩

/-- Claim C4: replacing every negative entry of the derivative-orders vector
by `0` (that is, passing `max (orders i) 0` instead of `orders i`) leaves the
output of `eval_deriv_contraction` unchanged. -/
theorem negative_orders_masking_law {K L : ℕ} (coord : Fin 3 → ℝ) (orders : Fin 3 → ℤ)
    (center : Fin 3 → ℝ) (angmom_comps : Fin L → Fin 3 → ℕ)
    (alphas prim_coeffs : Fin K → ℝ) :
    eval_deriv_contraction coord (fun i => max (orders i) 0) center angmom_comps
        alphas prim_coeffs =
      eval_deriv_contraction coord orders center angmom_comps alphas prim_coeffs := by
  have hfz : (Finset.univ.filter fun i => max (orders i) 0 ≤ 0) =
      (Finset.univ.filter fun i => orders i ≤ 0) := by
    apply Finset.filter_congr
    intro i _
    simp [max_le_iff]
  have hfp : (Finset.univ.filter fun i => 0 < max (orders i) 0) =
      (Finset.univ.filter fun i => 0 < orders i) := by
    apply Finset.filter_congr
    intro i _
    simp [lt_max_iff]
  have hmax : maxOrder (fun i => max (orders i) 0) = maxOrder orders := by
    rw [maxOrder, maxOrder, hfp]
    apply Finset.sup_congr rfl
    intro i hi
    rw [Finset.mem_filter] at hi
    omega
  unfold eval_deriv_contraction
  funext l
  apply Finset.sum_congr rfl
  intro p _
  rw [hfz, hfp, hmax]
  congr 1
  apply Finset.prod_congr rfl
  intro i hi
  rw [Finset.mem_filter] at hi
  have hmaxi : max (orders i) 0 = orders i := max_eq_left hi.2.le
  simp only [hmaxi]

/-- Claim C5: `eval_contraction` returns exactly the value of
`eval_deriv_contraction` on the same input with derivative orders
`(0,0,0)` — the source delegates with `np.zeros(center.shape)`. -/
theorem eval_contraction_delegates_zero_orders {K L : ℕ} (coord : Fin 3 → ℝ)
    (center : Fin 3 → ℝ) (angmom_comps : Fin L → Fin 3 → ℕ)
    (alphas coeffs : Fin K → ℝ) :
    eval_contraction coord center angmom_comps alphas coeffs =
      eval_deriv_contraction coord ![0, 0, 0] center angmom_comps alphas coeffs := by
  have hz : (fun _ : Fin 3 => (0 : ℤ)) = ![0, 0, 0] := by
    funext i
    fin_cases i <;> rfl
  rw [eval_contraction, hz]

/-- Claim C6: for every exponent `a > 0`, the `(2,0,0)`-derivative of a
single `s`-type Gaussian primitive is `(4a²(x-cₓ)² - 2a)·exp(-a(x-cₓ)²)`
times the two zero-order Gaussian factors of the other dimensions: the
masked coefficient table evaluated in the physicists' Hermite basis at
`√a·(x-cₓ)` reproduces the analytic second derivative. -/
theorem second_deriv_s_primitive (a : ℝ) (ha : 0 < a) (center coord : Fin 3 → ℝ) :
    eval_deriv_prim coord ![2, 0, 0] center (fun _ => 0) a =
      (4 * a ^ 2 * (coord 0 - center 0) ^ 2 - 2 * a) *
        Real.exp (-a * (coord 0 - center 0) ^ 2) *
        (Real.exp (-a * (coord 1 - center 1) ^ 2) *
          Real.exp (-a * (coord 2 - center 2) ^ 2)) := by
  have hfz : (Finset.univ.filter fun i => (![(2:ℤ),0,0]) i ≤ 0) = {1, 2} := by decide
  have hfp : (Finset.univ.filter fun i => 0 < (![(2:ℤ),0,0]) i) = {0} := by decide
  have hmax : maxOrder ![(2:ℤ),0,0] = 2 := by decide
  have hc0 : coeffsMasked 2 0 a (coord 0 - center 0) 0 = 0 := by norm_num [coeffsMasked]
  have hc1 : coeffsMasked 2 0 a (coord 0 - center 0) 1 = 0 := by norm_num [coeffsMasked]
  have hc2 : coeffsMasked 2 0 a (coord 0 - center 0) 2 = a := by
    norm_num [coeffsMasked, coeffsRaw, comb, perm]
    rw [show ((2:ℤ).toNat.choose 2) = 1 by rfl]
    rw [Real.sq_sqrt ha.le]
    norm_num
  rw [eval_deriv_prim, eval_deriv_contraction]
  rw [Fin.sum_univ_one]
  rw [hfz, hfp, hmax]
  rw [Finset.prod_pair (by decide : (1 : Fin 3) ≠ 2), Finset.prod_singleton]
  simp only [Matrix.cons_val_zero, Matrix.cons_val_one, Matrix.head_cons, derivFactor,
    hermval, Finset.sum_range_succ, Finset.sum_range_zero, hc0, hc1, hc2, hermiteH,
    zerothFactor, gauss, pow_zero, one_mul]
  ring_nf
  rw [Real.sq_sqrt ha.le]
  ring_nf

/-- Claim C6, witness: with `alpha = 1`, `center = (0,0,0)` and evaluation
point `(1,0,0)` the `(2,0,0)`-derivative of the `s`-type primitive is
`(4 - 2)·exp(-1) = 2·exp(-1)`. -/
theorem second_deriv_s_primitive_witness :
    (0 : ℝ) < 1 ∧
      eval_deriv_prim ![1, 0, 0] ![2, 0, 0] ![0, 0, 0] (fun _ => 0) 1 =
        2 * Real.exp (-1) := by
  refine ⟨one_pos, ?_⟩
  rw [second_deriv_s_primitive 1 one_pos ![0, 0, 0] ![1, 0, 0]]
  norm_num [Matrix.cons_val_zero, Matrix.cons_val_one, Matrix.head_cons]

/-- Claim C7: the output of `eval_deriv_contraction` is linear in the
contraction coefficients: scaling every coefficient by `c` scales every
output entry by `c`. -/
theorem linearity_in_prim_coeffs {K L : ℕ} (c : ℝ) (coord : Fin 3 → ℝ)
    (orders : Fin 3 → ℤ) (center : Fin 3 → ℝ) (angmom_comps : Fin L → Fin 3 → ℕ)
    (alphas prim_coeffs : Fin K → ℝ) (l : Fin L) :
    eval_deriv_contraction coord orders center angmom_comps alphas
        (fun p => c * prim_coeffs p) l =
      c * eval_deriv_contraction coord orders center angmom_comps alphas prim_coeffs l := by
  unfold eval_deriv_contraction
  rw [Finset.mul_sum]
  apply Finset.sum_congr rfl
  intro p _
  ring

/-- Claim C8: the sum of two single-primitive contractions with the same
points, orders, center and angular momentum components equals the evaluation
of the combined two-primitive contraction whose exponent and coefficient
arrays are the concatenations. -/
theorem additivity_over_primitives {L : ℕ} (coord : Fin 3 → ℝ) (orders : Fin 3 → ℤ)
    (center : Fin 3 → ℝ) (angmom_comps : Fin L → Fin 3 → ℕ) (a1 a2 c1 c2 : ℝ)
    (l : Fin L) :
    eval_deriv_contraction coord orders center angmom_comps ![a1] ![c1] l +
        eval_deriv_contraction coord orders center angmom_comps ![a2] ![c2] l =
      eval_deriv_contraction coord orders center angmom_comps ![a1, a2] ![c1, c2] l := by
  unfold eval_deriv_contraction
  rw [Fin.sum_univ_one, Fin.sum_univ_one, Fin.sum_univ_two]
  simp

/-- Claim C9: a coefficient term whose monomial power index `m - n + h`
would be negative (a negative power of the relative coordinate) is masked to
exactly `0` by the zeroing pass of deriv.py lines 109-110, so no negative
power of the relative coordinate is ever evaluated and, over the real-number
model, the output of `eval_deriv_contraction` is a well-defined finite real
number. -/
theorem negative_power_terms_masked (n : ℤ) (m h : ℕ) (a x : ℝ)
    (hneg : (m : ℤ) - n + h < 0) : coeffsMasked n m a x h = 0 := by
  rw [coeffsMasked, if_pos]
  omega

/-- Claim C9, witness: the term `h = 0` of a second derivative (`n = 2`) of
an `s`-type component (`m = 0`) has negative power index `0 - 2 + 0` and is
masked to `0`. -/
theorem negative_power_terms_masked_witness :
    ((0 : ℕ) : ℤ) - 2 + (0 : ℕ) < 0 ∧ coeffsMasked 2 0 (1 : ℝ) 5 0 = 0 :=
  ⟨by decide, negative_power_terms_masked 2 0 0 1 5 (by decide)⟩

/-- Claim C10, counterexample: a call with mismatched primitive counts
(`alphas` of length 1, `prim_coeffs` of length 2) does not fail fast — the
arrays broadcast silently and the call returns an array (of shape `(1,)`),
a wrong result `(c₀ + c₁)·v` instead of a shape-mismatch error. -/
theorem mismatched_prim_count_silent_result :
    eval_deriv_contraction_shape [3] [3] [1, 3] [1] [2] [0, 0, 0] = some [1] := rfl

/-- Claim C10, amended: `eval_deriv_contraction` performs no shape
validation at the call boundary; when the two primitive counts differ and
are both different from `1`, the evaluation aborts with a numpy broadcasting
error only at the final weighted summation of line 146 (and no partial
result is returned), while a count of `1` broadcasts silently against the
other. -/
theorem mismatched_prim_count_broadcast_error (K K' L : ℕ) (hK : K ≠ 1) (hK' : K' ≠ 1)
    (hne : K' ≠ K) :
    eval_deriv_contraction_shape [3] [3] [L, 3] [K] [K'] [0, 0, 0] = none := by
  have hKK : bdim K' K = none := by simp [bdim, hne, hK, hK']
  simp [eval_deriv_contraction_shape, gaussCoreShape, zerothPartShape, angmomAxes,
    alphasAxes, primAxes, expandAxes, maskAxis2, prodAxes02, sumAxis0, nZero, nPos,
    bcast, bcastRev, bdim_one_left, bdim_one_right, bdim_self, hKK]

/-- Claim C10, amended, witness: two exponents against three coefficients
raise the broadcasting error. -/
theorem mismatched_prim_count_broadcast_error_witness :
    (2 : ℕ) ≠ 1 ∧ (3 : ℕ) ≠ 1 ∧ (3 : ℕ) ≠ 2 ∧
      eval_deriv_contraction_shape [3] [3] [1, 3] [2] [3] [0, 0, 0] = none :=
  ⟨by decide, by decide, by decide,
    mismatched_prim_count_broadcast_error 2 3 1 (by decide) (by decide) (by decide)⟩

end GBasis
